import Mathlib

/-!
Verification of the fadupes fingerprinting-and-resume pipeline.

Shallow embedding of `src/lib.rs` and `src/bin/main.rs`: machine integers
are modelled as `ℤ`/`ℕ`, exact `f32`/`f64` sample arithmetic as `ℚ`
(and `ℝ` where logarithms are required), and the raw `to_bits()` patterns
used as HashMap grouping keys as `ℕ`.  Filesystem and process effects
(cache persistence, state-file load, the save/rename sequence) are
modelled as explicit state passing over small state types.
-/

namespace Fadupes

/-- `AudioFile::get_max_amplitude` (lib.rs:713-721): full-scale amplitude
per bit depth; `0` for any unsupported depth. -/
def get_max_amplitude (bit_depth : ℤ) : ℤ :=
  if bit_depth = 8 then 127
  else if bit_depth = 16 then 32767
  else if bit_depth = 24 then 2 ^ 23 - 1
  else if bit_depth = 32 then 2 ^ 31 - 1
  else 0

/-- Rust `i32::abs` in release mode: wraps at `i32::MIN` (producing
`i32::MIN` again), and is the ordinary absolute value elsewhere.  The
decoded samples fed to `accumulate_metrics` are `i32` values. -/
def i32_abs (s : ℤ) : ℤ := if s = -(2 ^ 31) then -(2 ^ 31) else |s|

/-- One iteration of the running-maximum update of `accumulate_metrics`
(lib.rs:682-691): `if abs > max_abs { max_abs = abs }`. -/
def max_abs_step (max_abs s : ℤ) : ℤ :=
  if max_abs < i32_abs s then i32_abs s else max_abs

/-- The running maximum of `i32_abs` over the sample stream, starting
from `0`, exactly as accumulated by the loop in `accumulate_metrics`. -/
def max_abs_fold (samples : List ℤ) : ℤ :=
  samples.foldl max_abs_step 0

/-- `peak_level` as computed by `accumulate_metrics` (lib.rs:669-697):
`0` when the full-scale amplitude is non-positive (unsupported depth)
or when the running maximum is `0`, else `max_abs / max_amplitude`
(`f32` division modelled exactly over `ℚ`). -/
def peak_level (samples : List ℤ) (bit_depth : ℤ) : ℚ :=
  if get_max_amplitude bit_depth ≤ 0 then 0
  else if max_abs_fold samples = 0 then 0
  else (max_abs_fold samples : ℚ) / (get_max_amplitude bit_depth : ℚ)

/-- `default_rms_db_level` (lib.rs:98-100): the sentinel dB value. -/
def default_rms_db_level : ℚ := -1000

/-- The sum of squared normalized samples accumulated by the loop in
`accumulate_metrics` (lib.rs:682-691), `f64` arithmetic modelled exactly
over `ℚ`. -/
def squared_sum (samples : List ℤ) (max_amplitude : ℤ) : ℚ :=
  samples.foldl
    (fun acc s =>
      acc + ((s : ℚ) / (max_amplitude : ℚ)) * ((s : ℚ) / (max_amplitude : ℚ))) 0

/-- `rms_db_level` as computed by `accumulate_metrics` (lib.rs:669-711):
the sentinel for an unsupported depth or an empty stream, else
`20 * log10 (sqrt (squared_sum / count))` guarded by `rms_amplitude > 0`,
with `f64` arithmetic idealized over `ℝ`. -/
noncomputable def rms_db_level (samples : List ℤ) (bit_depth : ℤ) : ℝ :=
  if get_max_amplitude bit_depth ≤ 0 then (default_rms_db_level : ℝ)
  else if samples.length = 0 then (default_rms_db_level : ℝ)
  else if 0 < Real.sqrt ((squared_sum samples (get_max_amplitude bit_depth) : ℝ) /
      (samples.length : ℝ)) then
    20 * Real.logb 10
      (Real.sqrt ((squared_sum samples (get_max_amplitude bit_depth) : ℝ) /
        (samples.length : ℝ)))
  else (default_rms_db_level : ℝ)

/-- `clean_rms_db_level` (lib.rs:116-122).  An `f64` value is modelled as
`Option ℝ`: `some x` is a finite value, `none` a non-finite one
(NaN or an infinity); non-finite values are replaced by the sentinel,
so the result is always a (finite) real number. -/
def clean_rms_db_level (v : Option ℝ) : ℝ :=
  match v with
  | some x => x
  | none => (default_rms_db_level : ℝ)

/-- The `AudioFile` record (lib.rs:124-141).  `P` and `R` are the
representations used for the `f32` `peak_level` and `f64` `rms_db_level`
fields: at the grouping/cache layer they are the raw bit patterns
(`ℕ`, the images of `f32::to_bits` / `f64::to_bits`), at the decoding
layer the idealized numeric values (`ℚ` / `ℝ`). -/
structure AudioFile (P R : Type) where
  file_path : String
  file_name : String
  total_samples : ℕ
  sample_rate : ℕ
  bit_depth : ℕ
  channels : ℕ
  peak_level : P
  rms_db_level : R
  crc32 : String
  file_size : ℕ
  modified_secs : ℕ
deriving DecidableEq

/-- `CachedEntry` (lib.rs:161-166): an `AudioFile` plus the size/mtime
snapshot taken when it was computed. -/
structure CachedEntry where
  audio_file : AudioFile ℕ ℕ
  file_size : ℕ
  modified_secs : ℕ
deriving DecidableEq

/-- The in-memory `HashMap<String, CachedEntry>` of `ResumeCache`,
modelled extensionally as a partial function from keys. -/
def CacheMap : Type := String → Option CachedEntry

/-- The empty map (`HashMap::new`). -/
def cacheMapEmpty : CacheMap := fun _ => none

/-- `ResumeCache::lookup` (lib.rs:216-231): a hit requires the stored
entry's size and mtime to both equal the queried ones. -/
def ResumeCache_lookup (map : CacheMap) (file_path : String)
    (file_size modified_secs : ℕ) : Option (AudioFile ℕ ℕ) :=
  match map file_path with
  | none => none
  | some entry =>
      if entry.file_size = file_size ∧ entry.modified_secs = modified_secs then
        some entry.audio_file
      else none

/-- `ResumeCache::store` (lib.rs:233-252): `HashMap::insert` keyed by
`audio_file.file_path`, replacing any previous entry wholesale. -/
def ResumeCache_store (map : CacheMap) (audio_file : AudioFile ℕ ℕ)
    (file_size modified_secs : ℕ) : CacheMap :=
  fun k =>
    if k = audio_file.file_path then
      some ⟨audio_file, file_size, modified_secs⟩
    else map k

/-! ### Persistence: the state file on disk (`ResumeCache::load` / `save`) -/

/-- A filesystem path, abstracted as a stem plus an optional extension,
enough to model `Path::with_extension` as used by `backup_broken`. -/
structure PathModel where
  stem : String
  ext : Option String
deriving DecidableEq

/-- Render a `PathModel` back into the path string it denotes. -/
def path_render (p : PathModel) : String :=
  match p.ext with
  | some e => p.stem ++ "." ++ e
  | none => p.stem

/-- `backup_broken` (lib.rs:763-786): the target the broken state file is
renamed to — the original extension with `.broken` pushed onto it, or the
bare extension `broken` when the path has none. -/
def backup_broken (p : PathModel) : PathModel :=
  match p.ext with
  | some e => ⟨p.stem, some (e ++ ".broken")⟩
  | none => ⟨p.stem, some "broken"⟩

/-- What `File::open` + `serde_json::from_reader` observe in the state
file at load time. -/
inductive StateFileContent
  | missing
  | unreadable
  | corrupt
  | valid (map : CacheMap)

/-- The filesystem action `ResumeCache::load` takes on the state file.
`deleted` is never produced; it exists so "renamed aside, not deleted"
is a non-trivial statement. -/
inductive LoadAction
  | noBackup
  | renamedTo (target : PathModel)
  | deleted
deriving DecidableEq

/-- The outcome of `ResumeCache::load`: the in-memory map it starts
with, the action taken on the on-disk file, and whether a warning was
emitted.  `load` is a total function of what it observes on disk: it
never aborts the process. -/
structure LoadResult where
  data : CacheMap
  action : LoadAction
  warned : Bool

/-- `ResumeCache::load` (lib.rs:178-209): a missing file yields an empty
store silently; an unreadable or unparsable file is backed up via
`backup_broken` with a warning and an empty store is substituted. -/
def ResumeCache_load (p : PathModel) (content : StateFileContent) : LoadResult :=
  match content with
  | .valid map => ⟨map, .noBackup, false⟩
  | .missing => ⟨cacheMapEmpty, .noBackup, false⟩
  | .unreadable => ⟨cacheMapEmpty, .renamedTo (backup_broken p), true⟩
  | .corrupt => ⟨cacheMapEmpty, .renamedTo (backup_broken p), true⟩

/-- Contents of one on-disk file during `ResumeCache::save`: either a
fully serialized snapshot or a half-written/truncated JSON document. -/
inductive FileContent
  | halfWritten
  | valid (map : CacheMap)

/-- The two files `ResumeCache::save` touches: the destination state
file and the `.tmp` staging file next to it. -/
structure FsState where
  dest : Option FileContent
  tmp : Option FileContent

/-- What a subsequent `ResumeCache::load` would observe in the
destination file of an `FsState`. -/
def dest_content (fs : FsState) : StateFileContent :=
  match fs.dest with
  | none => .missing
  | some .halfWritten => .corrupt
  | some (.valid map) => .valid map

/-- `ResumeCache::save` (lib.rs:254-276) as a step-indexed state
transformer on the filesystem, after the snapshot of the map is taken:
`steps = 0`: interrupted before `File::create(tmp)`;
`steps = 1`: tmp created/truncated or partially written
(`File::create` done, `to_writer`/`sync_all` incomplete);
`steps = 2`: tmp fully written and flushed (`sync_all` done);
`steps ≥ 3`: `fs::rename(tmp, dest)` performed. -/
def ResumeCache_save (snapshot : CacheMap) (fs : FsState) (steps : ℕ) : FsState :=
  match steps with
  | 0 => fs
  | 1 => { fs with tmp := some .halfWritten }
  | 2 => { fs with tmp := some (.valid snapshot) }
  | _ => { dest := some (.valid snapshot), tmp := none }

/-! ### Serialization of one record (`serde` on `AudioFile`) -/

/-- A JSON `f64` value: a finite number or a non-finite one (serde_json
yields an infinity for an out-of-range literal). -/
inductive JsonF64
  | finite (q : ℚ)
  | nonfinite
deriving DecidableEq

/-- `deserialize_rms_db_level` (lib.rs:102-114): the field's JSON value
(`none` = JSON null) is defaulted when null and clamped to the sentinel
when non-finite. -/
def deserialize_rms_db_level (val : Option JsonF64) : ℚ :=
  match val.getD (.finite default_rms_db_level) with
  | .finite q => q
  | .nonfinite => default_rms_db_level

/-- The raw JSON object for one `AudioFile` record: `none` marks an
absent field.  `rms_db_level` distinguishes an absent field (outer
`none`, which triggers the serde `default` attribute) from a present
JSON null (inner `none`, handled by `deserialize_rms_db_level`). -/
structure RawAudioFile where
  file_path : Option String
  file_name : Option String
  total_samples : Option ℕ
  sample_rate : Option ℕ
  bit_depth : Option ℕ
  channels : Option ℕ
  peak_level : Option ℚ
  rms_db_level : Option (Option JsonF64)
  crc32 : Option String
  file_size : Option ℕ
  modified_secs : Option ℕ
deriving DecidableEq

/-- Serde deserialization of an `AudioFile` (lib.rs:124-141): every
field except `rms_db_level` is required — its absence fails the record —
while `rms_db_level` falls back to `default_rms_db_level` when absent
and goes through `deserialize_rms_db_level` when present. -/
def deserialize_AudioFile (r : RawAudioFile) : Except String (AudioFile ℚ ℚ) :=
  match r.file_path, r.file_name, r.total_samples, r.sample_rate, r.bit_depth,
      r.channels, r.peak_level, r.crc32, r.file_size, r.modified_secs with
  | some fp, some fn, some ts, some sr, some bd, some ch, some pk, some crc,
      some fs, some ms =>
      .ok
        { file_path := fp, file_name := fn, total_samples := ts,
          sample_rate := sr, bit_depth := bd, channels := ch, peak_level := pk,
          rms_db_level :=
            match r.rms_db_level with
            | none => default_rms_db_level
            | some v => deserialize_rms_db_level v,
          crc32 := crc, file_size := fs, modified_secs := ms }
  | _, _, _, _, _, _, _, _, _, _ => .error "missing field"

/-! ### The Decoder (`AudioFile::process_audio_file`) -/

/-- `ProcessError` (lib.rs:730-737). -/
inductive ProcessError
  | ioError
  | flacError
  | nonFlacError
  | noSamplesFound
  | unsupportedBitDepth
deriving DecidableEq

/-- What opening a `.flac` candidate yields: an I/O failure on
`File::open`, a claxon failure on `FlacReader::new`, or a streaminfo
(`samples` is `none` when the stream does not declare a total) plus the
per-sample read results (`none` = a failed `Result` for that sample). -/
inductive FlacFile
  | ioErr
  | flacErr
  | ok (samples : Option ℕ) (sample_rate : ℕ) (bits : ℕ) (channels : ℕ)
      (data : List (Option ℤ))

/-- What opening a `.wav` candidate yields: any `WavReader::open`
failure, or the spec plus `duration` and per-sample read results. -/
inductive WavFile
  | openErr
  | ok (duration : ℕ) (sample_rate : ℕ) (bits : ℕ) (channels : ℕ)
      (data : List (Option ℤ))

/-- A candidate file as the Decoder sees it, tagged by extension. -/
inductive ContainerFile
  | flac (f : FlacFile)
  | wav (w : WavFile)
  | other

/-- Whether an `Except` result is a success. -/
def is_ok {ε α : Type} (e : Except ε α) : Bool :=
  match e with
  | .ok _ => true
  | .error _ => false

/-- `AudioFile::process_audio_file` (lib.rs:606-666), over the container
model.  Every failed per-sample read is replaced by `0`
(`sample.unwrap_or(0)`); the FLAC branch performs no bit-depth check;
the WAV branch rejects any bit depth outside {8, 16, 24, 32}. -/
noncomputable def process_audio_file (path : String) (c : ContainerFile) :
    Except ProcessError (AudioFile ℚ ℝ) :=
  match c with
  | .flac .ioErr => .error .ioError
  | .flac .flacErr => .error .flacError
  | .flac (.ok none _ _ _ _) => .error .noSamplesFound
  | .flac (.ok (some total) sr bits ch data) =>
      .ok
        { file_path := path, file_name := "", total_samples := total,
          sample_rate := sr, bit_depth := bits, channels := ch,
          peak_level := peak_level (data.map fun s => s.getD 0) (bits : ℤ),
          rms_db_level :=
            clean_rms_db_level
              (some (rms_db_level (data.map fun s => s.getD 0) (bits : ℤ))),
          crc32 := "", file_size := 0, modified_secs := 0 }
  | .wav .openErr => .error .nonFlacError
  | .wav (.ok dur sr bits ch data) =>
      if bits = 8 ∨ bits = 16 ∨ bits = 24 ∨ bits = 32 then
        .ok
          { file_path := path, file_name := "", total_samples := dur,
            sample_rate := sr, bit_depth := bits, channels := ch,
            peak_level := peak_level (data.map fun s => s.getD 0) (bits : ℤ),
            rms_db_level :=
              clean_rms_db_level
                (some (rms_db_level (data.map fun s => s.getD 0) (bits : ℤ))),
            crc32 := "", file_size := 0, modified_secs := 0 }
      else .error .unsupportedBitDepth
  | .other => .error .unsupportedBitDepth

/-! ### The Deduplicator (`compare_audio_files`, main.rs:171-204) -/

/-- The grouping key tuple of `compare_audio_files` (main.rs:187-194).
The two float fields enter via `f32::to_bits` / `f64::to_bits`, i.e. as
their raw bit patterns — which is exactly what the `ℕ`-valued fields of
`AudioFile ℕ ℕ` hold. -/
def dedup_key (f : AudioFile ℕ ℕ) : ℕ × ℕ × ℕ × ℕ × ℕ × ℕ :=
  (f.total_samples, f.sample_rate, f.bit_depth, f.channels,
   f.peak_level, f.rms_db_level)

/-- The member list `file_map[k]`: all input records with key `k`, in
input order. -/
def key_group (files : List (AudioFile ℕ ℕ)) (k : ℕ × ℕ × ℕ × ℕ × ℕ × ℕ) :
    List (AudioFile ℕ ℕ) :=
  files.filter fun f => decide (dedup_key f = k)

/-- The distinct keys occurring in the input (HashMap iteration order is
arbitrary in the source; the dedup order stands in for it). -/
def group_keys (files : List (AudioFile ℕ ℕ)) : List (ℕ × ℕ × ℕ × ℕ × ℕ × ℕ) :=
  (files.map dedup_key).dedup

/-- `identical_groups` as collected by `compare_audio_files`
(main.rs:181-204): one member list per key, keeping only lists with more
than one member. -/
def identical_groups (files : List (AudioFile ℕ ℕ)) :
    List (List (AudioFile ℕ ℕ)) :=
  ((group_keys files).map (key_group files)).filter fun g =>
    decide (1 < g.length)

/-! ### The scan pipeline (`AudioFile::walk_dir`, lib.rs:528-595) -/

/-- One candidate from `walk_dir`'s `files_to_process` list: its path,
observed size and mtime, and the file's decode outcome — a fixed
function of the (unchanged) file contents, `none` when
`process_audio_file` returns an error. -/
structure Candidate where
  path : String
  size : ℕ
  mtime : ℕ
  decode : Option (AudioFile ℕ ℕ)
deriving DecidableEq

/-- How many candidates share a given byte size (`size_counts`,
lib.rs:361-369). -/
def size_count (cands : List Candidate) (s : ℕ) : ℕ :=
  (cands.filter fun c => decide (c.size = s)).length

/-- `is_unique_skip` (lib.rs:535-541): with `--skip-unique-size`, a
candidate whose size occurs at most once is skipped. -/
def scan_skip (skip_unique_size : Bool) (cands : List Candidate)
    (c : Candidate) : Bool :=
  skip_unique_size && decide (size_count cands c.size ≤ 1)

/-- lib.rs:560-561: the freshly decoded record receives the observed
size and mtime before being stored and emitted. -/
def patch_record (r : AudioFile ℕ ℕ) (c : Candidate) : AudioFile ℕ ℕ :=
  { r with file_size := c.size, modified_secs := c.mtime }

/-- The per-candidate worker body of `walk_dir` (lib.rs:529-594), as a
transition on (cache map, emitted records, Decoder invocation count):
skip unique sizes, else serve from the cache, else decode — storing and
emitting on success, emitting nothing on failure. -/
def scan_step (skip_unique_size : Bool) (cands : List Candidate)
    (st : CacheMap × List (AudioFile ℕ ℕ) × ℕ) (c : Candidate) :
    CacheMap × List (AudioFile ℕ ℕ) × ℕ :=
  let (m, out, n) := st
  if scan_skip skip_unique_size cands c then (m, out, n)
  else
    match ResumeCache_lookup m c.path c.size c.mtime with
    | some r => (m, out ++ [r], n)
    | none =>
        match c.decode with
        | some r0 =>
            let r := patch_record r0 c
            (ResumeCache_store m r c.size c.mtime, out ++ [r], n + 1)
        | none => (m, out, n + 1)

/-- One full run of `walk_dir` over a candidate list, starting from a
given cache state (record emission order abstracted to candidate
order). -/
def walk_dir_scan (skip_unique_size : Bool) (cands : List Candidate)
    (m0 : CacheMap) : CacheMap × List (AudioFile ℕ ℕ) × ℕ :=
  cands.foldl (scan_step skip_unique_size cands) (m0, [], 0)

/-- What one candidate contributes to the run's output, expressed
against the cache state at the start of the run (accurate whenever no
earlier candidate writes this candidate's key). -/
def emit_of (skip_unique_size : Bool) (cands : List Candidate)
    (m : CacheMap) (c : Candidate) : Option (AudioFile ℕ ℕ) :=
  if scan_skip skip_unique_size cands c then none
  else
    match ResumeCache_lookup m c.path c.size c.mtime with
    | some r => some r
    | none => c.decode.map fun r0 => patch_record r0 c

/-- The number of Decoder invocations a run performs on a sub-list `l`:
the candidates that are neither skipped nor served from the cache. -/
def decode_count (skip_unique_size : Bool) (cands : List Candidate)
    (m : CacheMap) (l : List Candidate) : ℕ :=
  (l.filter fun c =>
    !scan_skip skip_unique_size cands c &&
      (ResumeCache_lookup m c.path c.size c.mtime).isNone).length

/-! ### Helper lemmas about the running maximum of `accumulate_metrics` -/

lemma max_abs_step_eq_max (m s : ℤ) : max_abs_step m s = max m (i32_abs s) := by
  unfold max_abs_step
  rcases le_or_lt (i32_abs s) m with h | h
  · rw [if_neg (not_lt.mpr h), max_eq_left h]
  · rw [if_pos h, max_eq_right h.le]

lemma le_foldl_max_abs (l : List ℤ) : ∀ m : ℤ, m ≤ l.foldl max_abs_step m := by
  induction l with
  | nil => intro m; simp
  | cons s t ih =>
      intro m
      rw [List.foldl_cons]
      calc m ≤ max_abs_step m s := by
              rw [max_abs_step_eq_max]; exact le_max_left _ _
        _ ≤ t.foldl max_abs_step (max_abs_step m s) := ih _

lemma foldl_max_abs_le (l : List ℤ) :
    ∀ m B : ℤ, m ≤ B → (∀ s ∈ l, i32_abs s ≤ B) →
      l.foldl max_abs_step m ≤ B := by
  induction l with
  | nil => intro m B hm _; simpa using hm
  | cons s t ih =>
      intro m B hm h
      rw [List.foldl_cons]
      refine ih _ B ?_ fun x hx => h x (List.mem_cons_of_mem _ hx)
      rw [max_abs_step_eq_max]
      exact max_le hm (h s (List.mem_cons_self _ _))

lemma mem_le_foldl_max_abs (l : List ℤ) :
    ∀ m : ℤ, ∀ s ∈ l, i32_abs s ≤ l.foldl max_abs_step m := by
  induction l with
  | nil => intro m s hs; simp at hs
  | cons a t ih =>
      intro m s hs
      rw [List.foldl_cons]
      rcases List.mem_cons.mp hs with rfl | hs
      · calc i32_abs s ≤ max_abs_step m s := by
              rw [max_abs_step_eq_max]; exact le_max_right _ _
          _ ≤ t.foldl max_abs_step (max_abs_step m s) := le_foldl_max_abs t _
      · exact ih _ s hs

lemma i32_abs_eq_abs {s B : ℤ} (hB : B < 2 ^ 31) (h : |s| ≤ B) :
    i32_abs s = |s| := by
  unfold i32_abs
  rw [if_neg]
  intro hs
  rw [hs, abs_neg, abs_of_nonneg (by norm_num)] at h
  omega

lemma get_max_amplitude_pos {b : ℤ}
    (hb : b = 8 ∨ b = 16 ∨ b = 24 ∨ b = 32) :
    0 < get_max_amplitude b ∧ get_max_amplitude b < 2 ^ 31 := by
  rcases hb with rfl | rfl | rfl | rfl <;> decide

/-! ### C2 — peak level bounds -/

/-- C2 counterexample: the single 24-bit sample `-2^23` (the most
negative value of the native 24-bit range) yields
`peak_level = 2^23 / (2^23 - 1) > 1`, so the computed peak level does
not always lie in `[0, 1]`. -/
theorem C2_counterexample : 1 < peak_level [-(2 ^ 23)] 24 := by
  have hi : i32_abs (-(2 ^ 23)) = 2 ^ 23 := by
    rw [i32_abs, if_neg (by norm_num), abs_neg, abs_of_nonneg (by norm_num)]
  have hm : max_abs_fold [-(2 ^ 23)] = 2 ^ 23 := by
    rw [max_abs_fold, List.foldl_cons, List.foldl_nil, max_abs_step, hi,
      if_pos (by norm_num)]
  have hg : get_max_amplitude 24 = 2 ^ 23 - 1 := by norm_num [get_max_amplitude]
  unfold peak_level
  rw [hm, hg]
  norm_num

/-- C2 amended: for samples within `[-full_scale, full_scale]` of the
bit depth (every native sample except the most negative code
`-2^(b-1)`), the peak level lies in `[0, 1]` and is `0` exactly when
every sample is `0` (in particular for the empty sequence). -/
theorem C2_peak_invariant (samples : List ℤ) (bit_depth : ℤ)
    (hb : bit_depth = 8 ∨ bit_depth = 16 ∨ bit_depth = 24 ∨ bit_depth = 32)
    (hs : ∀ s ∈ samples, |s| ≤ get_max_amplitude bit_depth) :
    0 ≤ peak_level samples bit_depth ∧ peak_level samples bit_depth ≤ 1 ∧
    (peak_level samples bit_depth = 0 ↔ ∀ s ∈ samples, s = 0) := by
  obtain ⟨hpos, hlt⟩ := get_max_amplitude_pos hb
  have habs : ∀ s ∈ samples, i32_abs s = |s| := fun s h =>
    i32_abs_eq_abs hlt (hs s h)
  have h0 : (0 : ℤ) ≤ max_abs_fold samples := le_foldl_max_abs samples 0
  have hle : max_abs_fold samples ≤ get_max_amplitude bit_depth :=
    foldl_max_abs_le samples 0 _ hpos.le fun s h => (habs s h) ▸ hs s h
  have hzero : max_abs_fold samples = 0 ↔ ∀ s ∈ samples, s = 0 := by
    constructor
    · intro hz s hsm
      have h1 := mem_le_foldl_max_abs samples 0 s hsm
      rw [max_abs_fold] at hz
      rw [hz, habs s hsm] at h1
      exact abs_eq_zero.mp (le_antisymm h1 (abs_nonneg s))
    · intro hz
      refine le_antisymm ?_ h0
      refine foldl_max_abs_le samples 0 0 le_rfl fun s h => ?_
      rw [habs s h, hz s h]
      simp
  unfold peak_level
  rw [if_neg (not_le.mpr hpos)]
  by_cases hm : max_abs_fold samples = 0
  · rw [if_pos hm]
    exact ⟨le_refl 0, by norm_num, ⟨fun _ => hzero.mp hm, fun _ => rfl⟩⟩
  · rw [if_neg hm]
    have hmpos : (0 : ℤ) < max_abs_fold samples := lt_of_le_of_ne h0 (Ne.symm hm)
    have hAq : (0 : ℚ) < (get_max_amplitude bit_depth : ℚ) := by
      exact_mod_cast hpos
    have hq : (0 : ℚ) < (max_abs_fold samples : ℚ) := by exact_mod_cast hmpos
    refine ⟨le_of_lt (div_pos hq hAq), ?_, ?_⟩
    · rw [div_le_one hAq]
      exact_mod_cast hle
    · constructor
      · intro h
        exact absurd h (ne_of_gt (div_pos hq hAq))
      · intro h
        exact absurd (hzero.mpr h) hm

/-- Witness for the amended C2: a 16-bit sequence with a non-zero and a
zero sample. -/
theorem C2_peak_invariant_witness :
    ((16 : ℤ) = 8 ∨ (16 : ℤ) = 16 ∨ (16 : ℤ) = 24 ∨ (16 : ℤ) = 32) ∧
    (∀ s ∈ ([100, 0, -50] : List ℤ), |s| ≤ get_max_amplitude 16) ∧
    0 ≤ peak_level [100, 0, -50] 16 ∧ peak_level [100, 0, -50] 16 ≤ 1 ∧
    (peak_level [100, 0, -50] 16 = 0 ↔ ∀ s ∈ ([100, 0, -50] : List ℤ), s = 0) := by
  refine ⟨Or.inr (Or.inl rfl), by decide, ?_⟩
  exact C2_peak_invariant [100, 0, -50] 16 (Or.inr (Or.inl rfl)) (by decide)

/-! ### C3 — RMS level contract -/

/-- C3: with a supported bit depth, a non-empty sample sequence whose
accumulated squared sum is positive gets
`20 * log10 (sqrt (squared_sum / count))`; an empty sequence or an
exactly-zero RMS amplitude gets the sentinel; and `clean_rms_db_level`
maps every non-finite value to the sentinel while passing finite values
through, so every stored or compared value is a (finite) real. -/
theorem C3_rms_contract (samples : List ℤ) (bit_depth : ℤ)
    (hb : 0 < get_max_amplitude bit_depth) :
    (samples ≠ [] → 0 < squared_sum samples (get_max_amplitude bit_depth) →
      rms_db_level samples bit_depth =
        20 * Real.logb 10 (Real.sqrt
          ((squared_sum samples (get_max_amplitude bit_depth) : ℝ) /
            (samples.length : ℝ)))) ∧
    (samples = [] ∨ squared_sum samples (get_max_amplitude bit_depth) = 0 →
      rms_db_level samples bit_depth = (default_rms_db_level : ℝ)) ∧
    clean_rms_db_level none = (default_rms_db_level : ℝ) ∧
    (∀ x : ℝ, clean_rms_db_level (some x) = x) := by
  refine ⟨?_, ?_, rfl, fun x => rfl⟩
  · intro hne hpos
    unfold rms_db_level
    rw [if_neg (not_le.mpr hb), if_neg (by simpa using hne), if_pos]
    apply Real.sqrt_pos.mpr
    apply div_pos
    · exact_mod_cast hpos
    · exact_mod_cast List.length_pos.mpr hne
  · intro h
    unfold rms_db_level
    rw [if_neg (not_le.mpr hb)]
    rcases h with rfl | hz
    · simp
    · rcases eq_or_ne samples [] with rfl | hne
      · simp
      · have hcond : ¬(0 < Real.sqrt
            (((squared_sum samples (get_max_amplitude bit_depth) : ℚ) : ℝ) /
              (samples.length : ℝ))) := by
          rw [hz]
          simp
        rw [if_neg (by simpa using hne), if_neg hcond]

/-- Witness for C3 at the one-sample 8-bit sequence `[1]`. -/
theorem C3_rms_contract_witness :
    (0 : ℤ) < get_max_amplitude 8 ∧ ([1] : List ℤ) ≠ [] ∧
    0 < squared_sum [1] (get_max_amplitude 8) ∧
    rms_db_level [1] 8 =
      20 * Real.logb 10 (Real.sqrt
        ((squared_sum [1] (get_max_amplitude 8) : ℝ) /
          ((([1] : List ℤ).length : ℕ) : ℝ))) := by
  have h1 : (0 : ℤ) < get_max_amplitude 8 := by decide
  have h2 : ([1] : List ℤ) ≠ [] := by simp
  have h3 : 0 < squared_sum [1] (get_max_amplitude 8) := by
    norm_num [squared_sum, get_max_amplitude]
  exact ⟨h1, h2, h3, (C3_rms_contract [1] 8 h1).1 h2 h3⟩

/-! ### C4 — cache round-trip -/

/-- C4: for every `AudioFile` `r`, size `s`, and mtime `t`, after
`store(r, s, t)` on any cache state, `lookup(r.file_path, s, t)` returns
`r`; and for every `s' ≠ s` or `t' ≠ t`, `lookup(r.file_path, s', t')`
returns nothing. -/
theorem C4_cache_roundtrip (map : CacheMap) (r : AudioFile ℕ ℕ)
    (s t s' t' : ℕ) :
    ResumeCache_lookup (ResumeCache_store map r s t) r.file_path s t = some r ∧
    (s' ≠ s ∨ t' ≠ t →
      ResumeCache_lookup (ResumeCache_store map r s t) r.file_path s' t' =
        none) := by
  constructor
  · simp [ResumeCache_lookup, ResumeCache_store]
  · intro h
    have hcond : ¬(s = s' ∧ t = t') := by
      rintro ⟨rfl, rfl⟩
      rcases h with h | h <;> exact h rfl
    simp [ResumeCache_lookup, ResumeCache_store, hcond]

/-- Witness for C4 at a concrete record, sizes and mtimes. -/
theorem C4_cache_roundtrip_witness :
    ((3 : ℕ) ≠ 1 ∨ (4 : ℕ) ≠ 2) ∧
    ResumeCache_lookup
      (ResumeCache_store cacheMapEmpty
        ⟨"p", "n", 1, 2, 3, 4, 5, 6, "c", 7, 8⟩ 1 2) "p" 1 2 =
      some ⟨"p", "n", 1, 2, 3, 4, 5, 6, "c", 7, 8⟩ ∧
    ResumeCache_lookup
      (ResumeCache_store cacheMapEmpty
        ⟨"p", "n", 1, 2, 3, 4, 5, 6, "c", 7, 8⟩ 1 2) "p" 3 4 = none := by
  refine ⟨Or.inl (by decide), ?_, ?_⟩
  · exact (C4_cache_roundtrip cacheMapEmpty
      ⟨"p", "n", 1, 2, 3, 4, 5, 6, "c", 7, 8⟩ 1 2 3 4).1
  · exact (C4_cache_roundtrip cacheMapEmpty
      ⟨"p", "n", 1, 2, 3, 4, 5, 6, "c", 7, 8⟩ 1 2 3 4).2 (Or.inl (by decide))

/-! ### C5 — atomic save -/

/-- C5: `ResumeCache::save` stages the snapshot in a temporary file and
installs it with a rename; for every interruption point before the
rename (`k ≤ 2`, covering "temporary file written but not renamed"),
the destination file is untouched and a subsequent `load` observes
exactly what it would have observed before the save; once the rename
runs (`3 ≤ k`) the destination holds the full snapshot. -/
theorem C5_atomic_save (snapshot : CacheMap) (fs : FsState) (p : PathModel)
    (k : ℕ) :
    (k ≤ 2 →
      (ResumeCache_save snapshot fs k).dest = fs.dest ∧
      (ResumeCache_load p (dest_content (ResumeCache_save snapshot fs k))).data =
        (ResumeCache_load p (dest_content fs)).data) ∧
    (3 ≤ k →
      (ResumeCache_save snapshot fs k).dest = some (.valid snapshot)) := by
  constructor
  · intro hk
    interval_cases k <;> exact ⟨rfl, rfl⟩
  · intro hk
    obtain ⟨n, rfl⟩ : ∃ n, k = n + 3 := ⟨k - 3, by omega⟩
    rfl

/-- Witness for C5: interruption right after the temporary file is fully
written (`k = 2`), over a previously persisted valid store. -/
theorem C5_atomic_save_witness :
    (2 : ℕ) ≤ 2 ∧
    (ResumeCache_save cacheMapEmpty ⟨some (.valid cacheMapEmpty), none⟩ 2).dest =
      (⟨some (.valid cacheMapEmpty), none⟩ : FsState).dest ∧
    (ResumeCache_load ⟨"fadupes_state", some "json"⟩
        (dest_content
          (ResumeCache_save cacheMapEmpty
            ⟨some (.valid cacheMapEmpty), none⟩ 2))).data =
      (ResumeCache_load ⟨"fadupes_state", some "json"⟩
        (dest_content (⟨some (.valid cacheMapEmpty), none⟩ : FsState))).data := by
  refine ⟨by decide, ?_⟩
  exact (C5_atomic_save cacheMapEmpty ⟨some (.valid cacheMapEmpty), none⟩
    ⟨"fadupes_state", some "json"⟩ 2).1 (by decide)

/-! ### C6 — load recovery -/

/-- C6: `ResumeCache::load` is a total function of what it observes in
the state file (it never aborts).  A missing file yields an empty store
with no backup and no warning; an unreadable or corrupt file yields an
empty store, a warning, and a rename of the broken file — never a
deletion — to a name carrying a `.broken` suffix. -/
theorem C6_load_recovery (p : PathModel) (content : StateFileContent) :
    (content = .missing →
      (ResumeCache_load p content).data = cacheMapEmpty ∧
      (ResumeCache_load p content).action = .noBackup ∧
      (ResumeCache_load p content).warned = false) ∧
    (content = .unreadable ∨ content = .corrupt →
      (ResumeCache_load p content).data = cacheMapEmpty ∧
      (ResumeCache_load p content).action = .renamedTo (backup_broken p) ∧
      (ResumeCache_load p content).action ≠ .deleted ∧
      (ResumeCache_load p content).warned = true) ∧
    path_render (backup_broken p) = path_render p ++ ".broken" := by
  refine ⟨?_, ?_, ?_⟩
  · rintro rfl
    exact ⟨rfl, rfl, rfl⟩
  · rintro (rfl | rfl) <;>
      exact ⟨rfl, rfl, by simp [ResumeCache_load], rfl⟩
  · obtain ⟨stem, ext⟩ := p
    cases ext with
    | none =>
        show stem ++ "." ++ "broken" = stem ++ ".broken"
        rw [String.append_assoc]
        congr 1
    | some e =>
        show stem ++ "." ++ (e ++ ".broken") = stem ++ "." ++ e ++ ".broken"
        simp [String.append_assoc]

/-- Witness for C6: a corrupt `fadupes_state.json` is renamed to
`fadupes_state.json.broken`, not deleted, and the run continues with an
empty store. -/
theorem C6_load_recovery_witness :
    (ResumeCache_load ⟨"fadupes_state", some "json"⟩ .corrupt).data =
      cacheMapEmpty ∧
    (ResumeCache_load ⟨"fadupes_state", some "json"⟩ .corrupt).action =
      .renamedTo (backup_broken ⟨"fadupes_state", some "json"⟩) ∧
    (ResumeCache_load ⟨"fadupes_state", some "json"⟩ .corrupt).action ≠
      .deleted ∧
    (ResumeCache_load ⟨"fadupes_state", some "json"⟩ .corrupt).warned = true ∧
    path_render (backup_broken ⟨"fadupes_state", some "json"⟩) =
      "fadupes_state.json.broken" := by
  have h := (C6_load_recovery ⟨"fadupes_state", some "json"⟩ .corrupt).2.1
    (Or.inr rfl)
  exact ⟨h.1, h.2.1, h.2.2.1, h.2.2.2, by decide⟩

/-! ### C8 — record deserialization -/

/-- C8 counterexample: a stored record whose `sample_rate` field is
absent fails to deserialize instead of defaulting the field to the
sentinel — refuting the claim that any absent numeric field defaults. -/
theorem C8_counterexample :
    deserialize_AudioFile
      { file_path := some "p", file_name := some "n", total_samples := some 1,
        sample_rate := none, bit_depth := some 16, channels := some 2,
        peak_level := some 0, rms_db_level := some (some (.finite 0)),
        crc32 := some "c", file_size := some 3, modified_secs := some 4 } =
      .error "missing field" := rfl

/-- C8 amended: only the `rms_db_level` field is defaulted — when it is
absent, JSON-null, or non-finite, the record still deserializes and the
field takes the sentinel `default_rms_db_level`; a present finite value
is kept. -/
theorem C8_rms_default (fp fn crc : String) (ts sr bd ch fsz ms : ℕ)
    (pk q : ℚ) :
    (deserialize_AudioFile
      { file_path := some fp, file_name := some fn, total_samples := some ts,
        sample_rate := some sr, bit_depth := some bd, channels := some ch,
        peak_level := some pk, rms_db_level := none, crc32 := some crc,
        file_size := some fsz, modified_secs := some ms } =
      .ok ⟨fp, fn, ts, sr, bd, ch, pk, default_rms_db_level, crc, fsz, ms⟩) ∧
    (deserialize_AudioFile
      { file_path := some fp, file_name := some fn, total_samples := some ts,
        sample_rate := some sr, bit_depth := some bd, channels := some ch,
        peak_level := some pk, rms_db_level := some none, crc32 := some crc,
        file_size := some fsz, modified_secs := some ms } =
      .ok ⟨fp, fn, ts, sr, bd, ch, pk, default_rms_db_level, crc, fsz, ms⟩) ∧
    (deserialize_AudioFile
      { file_path := some fp, file_name := some fn, total_samples := some ts,
        sample_rate := some sr, bit_depth := some bd, channels := some ch,
        peak_level := some pk, rms_db_level := some (some .nonfinite),
        crc32 := some crc, file_size := some fsz, modified_secs := some ms } =
      .ok ⟨fp, fn, ts, sr, bd, ch, pk, default_rms_db_level, crc, fsz, ms⟩) ∧
    (deserialize_AudioFile
      { file_path := some fp, file_name := some fn, total_samples := some ts,
        sample_rate := some sr, bit_depth := some bd, channels := some ch,
        peak_level := some pk, rms_db_level := some (some (.finite q)),
        crc32 := some crc, file_size := some fsz, modified_secs := some ms } =
      .ok ⟨fp, fn, ts, sr, bd, ch, pk, q, crc, fsz, ms⟩) :=
  ⟨rfl, rfl, rfl, rfl⟩

/-! ### C1 — duplicate grouping -/

lemma one_lt_length_of_mem_ne {α : Type} {l : List α} {a b : α}
    (ha : a ∈ l) (hb : b ∈ l) (hne : a ≠ b) : 1 < l.length := by
  cases l with
  | nil => simp at ha
  | cons x t =>
      cases t with
      | nil =>
          simp at ha hb
          exact absurd (ha.trans hb.symm) hne
      | cons y u =>
          simp only [List.length_cons]
          omega

/-- C1: every reported group has at least two members; every member of a
reported group is an input record and all members of one group share the
full key tuple; and any two input records with equal key tuples — in
particular records differing in file path or file size — land in one
common reported group. -/
theorem C1_dedup_grouping (files : List (AudioFile ℕ ℕ)) :
    (∀ g ∈ identical_groups files, 2 ≤ g.length) ∧
    (∀ g ∈ identical_groups files, ∀ a ∈ g, a ∈ files ∧
      ∀ b ∈ g, dedup_key a = dedup_key b) ∧
    (∀ a ∈ files, ∀ b ∈ files, dedup_key a = dedup_key b →
      a.file_path ≠ b.file_path ∨ a.file_size ≠ b.file_size →
      ∃ g ∈ identical_groups files, a ∈ g ∧ b ∈ g) := by
  refine ⟨?_, ?_, ?_⟩
  · intro g hg
    rw [identical_groups, List.mem_filter] at hg
    have := of_decide_eq_true hg.2
    omega
  · intro g hg a ha
    rw [identical_groups, List.mem_filter] at hg
    obtain ⟨k, hk, rfl⟩ := List.mem_map.mp hg.1
    rw [key_group, List.mem_filter] at ha
    refine ⟨ha.1, ?_⟩
    intro b hb
    rw [key_group, List.mem_filter] at hb
    rw [of_decide_eq_true ha.2, of_decide_eq_true hb.2]
  · intro a ha b hb hkey hdiff
    have hne : a ≠ b := by
      rintro rfl
      rcases hdiff with h | h <;> exact h rfl
    have hag : a ∈ key_group files (dedup_key a) := by
      rw [key_group, List.mem_filter]
      exact ⟨ha, decide_eq_true rfl⟩
    have hbg : b ∈ key_group files (dedup_key a) := by
      rw [key_group, List.mem_filter]
      exact ⟨hb, decide_eq_true hkey.symm⟩
    refine ⟨key_group files (dedup_key a), ?_, hag, hbg⟩
    rw [identical_groups, List.mem_filter]
    constructor
    · refine List.mem_map_of_mem _ ?_
      rw [group_keys, List.mem_dedup]
      exact List.mem_map_of_mem _ ha
    · exact decide_eq_true (one_lt_length_of_mem_ne hag hbg hne)

/-- Witness for C1: two records with identical key tuples but different
paths and sizes end up in one reported group. -/
theorem C1_dedup_grouping_witness :
    dedup_key (⟨"a", "", 10, 44100, 16, 2, 5, 6, "", 100, 1⟩ : AudioFile ℕ ℕ) =
      dedup_key (⟨"b", "", 10, 44100, 16, 2, 5, 6, "", 200, 1⟩ : AudioFile ℕ ℕ) ∧
    ∃ g ∈ identical_groups
        [⟨"a", "", 10, 44100, 16, 2, 5, 6, "", 100, 1⟩,
         ⟨"b", "", 10, 44100, 16, 2, 5, 6, "", 200, 1⟩],
      (⟨"a", "", 10, 44100, 16, 2, 5, 6, "", 100, 1⟩ : AudioFile ℕ ℕ) ∈ g ∧
      (⟨"b", "", 10, 44100, 16, 2, 5, 6, "", 200, 1⟩ : AudioFile ℕ ℕ) ∈ g := by
  refine ⟨rfl, ?_⟩
  exact (C1_dedup_grouping
      [⟨"a", "", 10, 44100, 16, 2, 5, 6, "", 100, 1⟩,
       ⟨"b", "", 10, 44100, 16, 2, 5, 6, "", 200, 1⟩]).2.2
    ⟨"a", "", 10, 44100, 16, 2, 5, 6, "", 100, 1⟩ (by decide)
    ⟨"b", "", 10, 44100, 16, 2, 5, 6, "", 200, 1⟩ (by decide)
    rfl (Or.inl (by decide))

/-! ### C7 — decoder error conditions -/

/-- C7 counterexample: a FLAC container with the unsupported bit depth
20 (outside {8, 16, 24, 32}) and a declared sample count decodes
successfully — `process_audio_file` performs no bit-depth check on the
FLAC path — contradicting "returns a typed error … when the bit depth
is unsupported". -/
theorem C7_counterexample :
    ((20 : ℕ) ≠ 8 ∧ (20 : ℕ) ≠ 16 ∧ (20 : ℕ) ≠ 24 ∧ (20 : ℕ) ≠ 32) ∧
    is_ok (process_audio_file "a.flac"
      (.flac (.ok (some 100) 44100 20 1 [some 1]))) = true :=
  ⟨by decide, rfl⟩

/-- C7 amended: `process_audio_file` fails exactly on an unreadable or
corrupt container (`ioErr`/`flacErr`/`openErr`), a FLAC stream with no
declared sample count, a WAV bit depth outside {8, 16, 24, 32}, or an
unrecognized extension; in every other case — including a FLAC with an
unsupported bit depth and a WAV with zero samples — it succeeds. -/
theorem C7_decoder_errors (path : String) (c : ContainerFile) :
    is_ok (process_audio_file path c) = false ↔
      c = .flac .ioErr ∨ c = .flac .flacErr ∨
      (∃ sr bits ch data, c = .flac (.ok none sr bits ch data)) ∨
      c = .wav .openErr ∨
      (∃ dur sr bits ch data, c = .wav (.ok dur sr bits ch data) ∧
        ¬(bits = 8 ∨ bits = 16 ∨ bits = 24 ∨ bits = 32)) ∨
      c = .other := by
  cases c with
  | flac f =>
      cases f with
      | ioErr => simp [process_audio_file, is_ok]
      | flacErr => simp [process_audio_file, is_ok]
      | ok samples sr bits ch data =>
          cases samples with
          | none => simp [process_audio_file, is_ok]
          | some n => simp [process_audio_file, is_ok]
  | wav w =>
      cases w with
      | openErr => simp [process_audio_file, is_ok]
      | ok dur sr bits ch data =>
          by_cases hbits : bits = 8 ∨ bits = 16 ∨ bits = 24 ∨ bits = 32
          · simp only [process_audio_file, is_ok, if_pos hbits]
            simp
            tauto
          · simp only [process_audio_file, is_ok, if_neg hbits]
            push_neg at hbits
            simp
            exact ⟨dur, sr, bits, ⟨rfl, rfl, rfl⟩, hbits.1, hbits.2.1,
              hbits.2.2.1, hbits.2.2.2⟩
  | other => simp [process_audio_file, is_ok]

/-! ### C10 — per-sample read failures -/

/-- C10: a failed per-sample read (`none`) is treated exactly like a
successfully read `0` — the decode of a stream with read failures equals
the decode of the same stream with those samples replaced by `0`, it
succeeds, and no per-file error is produced (FLAC unconditionally, WAV
for every supported bit depth). -/
theorem C10_sample_read_failures (path : String) (total sr bits ch dur : ℕ)
    (data : List (Option ℤ)) :
    (process_audio_file path (.flac (.ok (some total) sr bits ch data)) =
      process_audio_file path
        (.flac (.ok (some total) sr bits ch
          (data.map fun s => some (s.getD 0)))) ∧
     is_ok (process_audio_file path
        (.flac (.ok (some total) sr bits ch data))) = true) ∧
    (bits = 8 ∨ bits = 16 ∨ bits = 24 ∨ bits = 32 →
      process_audio_file path (.wav (.ok dur sr bits ch data)) =
        process_audio_file path
          (.wav (.ok dur sr bits ch (data.map fun s => some (s.getD 0)))) ∧
      is_ok (process_audio_file path (.wav (.ok dur sr bits ch data))) =
        true) := by
  have hmap : (data.map fun s => some (s.getD 0)).map (fun s => s.getD 0) =
      data.map fun s => s.getD 0 := by
    simp [List.map_map, Function.comp]
  constructor
  · exact ⟨by simp [process_audio_file, hmap], rfl⟩
  · intro hbits
    exact ⟨by simp [process_audio_file, hmap, hbits],
      by simp [process_audio_file, is_ok, hbits]⟩

/-- Witness for C10 at a concrete 16-bit WAV stream with one failed
sample read. -/
theorem C10_sample_read_failures_witness :
    ((16 : ℕ) = 8 ∨ (16 : ℕ) = 16 ∨ (16 : ℕ) = 24 ∨ (16 : ℕ) = 32) ∧
    process_audio_file "a.wav" (.wav (.ok 2 44100 16 1 [none, some 3])) =
      process_audio_file "a.wav" (.wav (.ok 2 44100 16 1 [some 0, some 3])) ∧
    is_ok (process_audio_file "a.wav"
      (.wav (.ok 2 44100 16 1 [none, some 3]))) = true := by
  have h := (C10_sample_read_failures "a.wav" 0 44100 16 1 2
    [none, some 3]).2 (Or.inr (Or.inl rfl))
  exact ⟨Or.inr (Or.inl rfl), h.1, h.2⟩

/-! ### C9 — resume idempotence: helper lemmas -/

lemma ResumeCache_lookup_congr {m m' : CacheMap} (p : String)
    (h : m' p = m p) (sz mt : ℕ) :
    ResumeCache_lookup m' p sz mt = ResumeCache_lookup m p sz mt := by
  unfold ResumeCache_lookup
  rw [h]

lemma ResumeCache_store_ne (m : CacheMap) (r : AudioFile ℕ ℕ) (s t : ℕ)
    {p : String} (h : p ≠ r.file_path) :
    ResumeCache_store m r s t p = m p := by
  unfold ResumeCache_store
  rw [if_neg h]

lemma patch_record_path (r : AudioFile ℕ ℕ) (c : Candidate) :
    (patch_record r c).file_path = r.file_path := rfl

lemma emit_of_congr (skipU : Bool) (cands : List Candidate)
    {m m' : CacheMap} (c : Candidate) (h : m' c.path = m c.path) :
    emit_of skipU cands m' c = emit_of skipU cands m c := by
  unfold emit_of
  rw [ResumeCache_lookup_congr c.path h]

lemma filterMap_congr_mem {α β : Type} {l : List α} {f g : α → Option β}
    (h : ∀ a ∈ l, f a = g a) : l.filterMap f = l.filterMap g := by
  induction l with
  | nil => rfl
  | cons a t ih =>
      rw [List.filterMap_cons, List.filterMap_cons, h a (List.mem_cons_self _ _),
        ih fun x hx => h x (List.mem_cons_of_mem _ hx)]

lemma filter_congr_mem {α : Type} {l : List α} {f g : α → Bool}
    (h : ∀ a ∈ l, f a = g a) : l.filter f = l.filter g := by
  induction l with
  | nil => rfl
  | cons a t ih =>
      rw [List.filter_cons, List.filter_cons, h a (List.mem_cons_self _ _),
        ih fun x hx => h x (List.mem_cons_of_mem _ hx)]

lemma decode_count_congr (skipU : Bool) (cands : List Candidate)
    {m m' : CacheMap} {l : List Candidate}
    (h : ∀ c ∈ l, m' c.path = m c.path) :
    decode_count skipU cands m' l = decode_count skipU cands m l := by
  unfold decode_count
  rw [filter_congr_mem]
  intro c hc
  rw [ResumeCache_lookup_congr c.path (h c hc)]

lemma scan_step_skip {skipU : Bool} {cands : List Candidate} {c : Candidate}
    (m : CacheMap) (out : List (AudioFile ℕ ℕ)) (n : ℕ)
    (h : scan_skip skipU cands c = true) :
    scan_step skipU cands (m, out, n) c = (m, out, n) := by
  simp [scan_step, h]

lemma scan_step_hit {skipU : Bool} {cands : List Candidate} {c : Candidate}
    (m : CacheMap) (out : List (AudioFile ℕ ℕ)) (n : ℕ) {r : AudioFile ℕ ℕ}
    (h : scan_skip skipU cands c = false)
    (hl : ResumeCache_lookup m c.path c.size c.mtime = some r) :
    scan_step skipU cands (m, out, n) c = (m, out ++ [r], n) := by
  simp [scan_step, h, hl]

lemma scan_step_decode {skipU : Bool} {cands : List Candidate} {c : Candidate}
    (m : CacheMap) (out : List (AudioFile ℕ ℕ)) (n : ℕ) {r0 : AudioFile ℕ ℕ}
    (h : scan_skip skipU cands c = false)
    (hl : ResumeCache_lookup m c.path c.size c.mtime = none)
    (hd : c.decode = some r0) :
    scan_step skipU cands (m, out, n) c =
      (ResumeCache_store m (patch_record r0 c) c.size c.mtime,
       out ++ [patch_record r0 c], n + 1) := by
  simp [scan_step, h, hl, hd]

lemma scan_step_fail {skipU : Bool} {cands : List Candidate} {c : Candidate}
    (m : CacheMap) (out : List (AudioFile ℕ ℕ)) (n : ℕ)
    (h : scan_skip skipU cands c = false)
    (hl : ResumeCache_lookup m c.path c.size c.mtime = none)
    (hd : c.decode = none) :
    scan_step skipU cands (m, out, n) c = (m, out, n + 1) := by
  simp [scan_step, h, hl, hd]

lemma emit_of_skip {skipU : Bool} {cands : List Candidate} {c : Candidate}
    (m : CacheMap) (h : scan_skip skipU cands c = true) :
    emit_of skipU cands m c = none := by
  simp [emit_of, h]

lemma emit_of_hit {skipU : Bool} {cands : List Candidate} {c : Candidate}
    (m : CacheMap) {r : AudioFile ℕ ℕ} (h : scan_skip skipU cands c = false)
    (hl : ResumeCache_lookup m c.path c.size c.mtime = some r) :
    emit_of skipU cands m c = some r := by
  simp [emit_of, h, hl]

lemma emit_of_decode {skipU : Bool} {cands : List Candidate} {c : Candidate}
    (m : CacheMap) (h : scan_skip skipU cands c = false)
    (hl : ResumeCache_lookup m c.path c.size c.mtime = none) :
    emit_of skipU cands m c = c.decode.map fun r0 => patch_record r0 c := by
  simp [emit_of, h, hl]

lemma decode_count_cons_skip {skipU : Bool} {cands : List Candidate}
    {c : Candidate} (m : CacheMap) (t : List Candidate)
    (h : scan_skip skipU cands c = true) :
    decode_count skipU cands m (c :: t) = decode_count skipU cands m t := by
  simp [decode_count, List.filter_cons, h]

lemma decode_count_cons_hit {skipU : Bool} {cands : List Candidate}
    {c : Candidate} (m : CacheMap) (t : List Candidate) {r : AudioFile ℕ ℕ}
    (h : scan_skip skipU cands c = false)
    (hl : ResumeCache_lookup m c.path c.size c.mtime = some r) :
    decode_count skipU cands m (c :: t) = decode_count skipU cands m t := by
  simp [decode_count, List.filter_cons, h, hl]

lemma decode_count_cons_miss {skipU : Bool} {cands : List Candidate}
    {c : Candidate} (m : CacheMap) (t : List Candidate)
    (h : scan_skip skipU cands c = false)
    (hl : ResumeCache_lookup m c.path c.size c.mtime = none) :
    decode_count skipU cands m (c :: t) = decode_count skipU cands m t + 1 := by
  simp [decode_count, List.filter_cons, h, hl]

/-- Characterization of one `walk_dir` run over a sub-list `l` of
candidates with pairwise-distinct paths whose decoded records carry
their own path: the emitted records are `emit_of` per candidate against
the starting map, keys outside `l` are untouched, after the run every
non-skipped candidate's key holds exactly what was emitted for it, and
the Decoder is invoked exactly on the non-skipped cache misses. -/
lemma walk_fold_spec (skipU : Bool) (cands : List Candidate) :
    ∀ (l : List Candidate) (m : CacheMap) (out : List (AudioFile ℕ ℕ)) (n : ℕ),
    (l.map Candidate.path).Nodup →
    (∀ c ∈ l, ∀ r, c.decode = some r → r.file_path = c.path) →
    (l.foldl (scan_step skipU cands) (m, out, n)).2.1 =
        out ++ l.filterMap (emit_of skipU cands m) ∧
    (∀ p, p ∉ l.map Candidate.path →
        (l.foldl (scan_step skipU cands) (m, out, n)).1 p = m p) ∧
    (∀ c ∈ l, scan_skip skipU cands c = false →
        ResumeCache_lookup (l.foldl (scan_step skipU cands) (m, out, n)).1
          c.path c.size c.mtime = emit_of skipU cands m c) ∧
    (l.foldl (scan_step skipU cands) (m, out, n)).2.2 =
        n + decode_count skipU cands m l := by
  intro l
  induction l with
  | nil =>
      intro m out n _ _
      refine ⟨by simp, fun p _ => rfl, fun c hc => absurd hc (by simp), ?_⟩
      simp [decode_count]
  | cons c t ih =>
      intro m out n hnd hok
      rw [List.map_cons, List.nodup_cons] at hnd
      obtain ⟨hcp, hndt⟩ := hnd
      have hokc := hok c (List.mem_cons_self _ _)
      have hokt : ∀ x ∈ t, ∀ r, x.decode = some r → r.file_path = x.path :=
        fun x hx => hok x (List.mem_cons_of_mem _ hx)
      have hne_t : ∀ x ∈ t, x.path ≠ c.path := by
        intro x hx heq
        exact hcp (heq ▸ List.mem_map_of_mem Candidate.path hx)
      rw [List.foldl_cons]
      cases hsk : scan_skip skipU cands c with
      | true =>
          rw [scan_step_skip m out n hsk]
          obtain ⟨ih1, ih2, ih3, ih4⟩ := ih m out n hndt hokt
          refine ⟨?_, ?_, ?_, ?_⟩
          · rw [ih1, List.filterMap_cons, emit_of_skip m hsk]
          · intro p hp
            rw [List.map_cons, List.mem_cons] at hp
            push_neg at hp
            exact ih2 p hp.2
          · intro c' hc' hsk'
            rcases List.mem_cons.mp hc' with rfl | hc'
            · rw [hsk] at hsk'
              exact absurd hsk' (by simp)
            · exact ih3 c' hc' hsk'
          · rw [ih4, decode_count_cons_skip m t hsk]
      | false =>
          cases hl : ResumeCache_lookup m c.path c.size c.mtime with
          | some r =>
              rw [scan_step_hit m out n hsk hl]
              obtain ⟨ih1, ih2, ih3, ih4⟩ := ih m (out ++ [r]) n hndt hokt
              refine ⟨?_, ?_, ?_, ?_⟩
              · rw [ih1, List.filterMap_cons, emit_of_hit m hsk hl]
                simp
              · intro p hp
                rw [List.map_cons, List.mem_cons] at hp
                push_neg at hp
                exact ih2 p hp.2
              · intro c' hc' hsk'
                rcases List.mem_cons.mp hc' with rfl | hc'
                · rw [ResumeCache_lookup_congr c'.path (ih2 c'.path hcp), hl,
                    emit_of_hit m hsk hl]
                · exact ih3 c' hc' hsk'
              · rw [ih4, decode_count_cons_hit m t hsk hl]
          | none =>
              cases hd : c.decode with
              | some r0 =>
                  rw [scan_step_decode m out n hsk hl hd]
                  have hrp : (patch_record r0 c).file_path = c.path := by
                    rw [patch_record_path]
                    exact hokc r0 hd
                  have hagree : ∀ x ∈ t,
                      ResumeCache_store m (patch_record r0 c) c.size c.mtime
                          x.path = m x.path := by
                    intro x hx
                    exact ResumeCache_store_ne m _ _ _ (hrp ▸ hne_t x hx)
                  obtain ⟨ih1, ih2, ih3, ih4⟩ :=
                    ih (ResumeCache_store m (patch_record r0 c) c.size c.mtime)
                      (out ++ [patch_record r0 c]) (n + 1) hndt hokt
                  refine ⟨?_, ?_, ?_, ?_⟩
                  · rw [ih1, List.filterMap_cons, emit_of_decode m hsk hl, hd,
                      filterMap_congr_mem fun x hx =>
                        emit_of_congr skipU cands x (hagree x hx)]
                    simp
                  · intro p hp
                    rw [List.map_cons, List.mem_cons] at hp
                    push_neg at hp
                    rw [ih2 p hp.2]
                    exact ResumeCache_store_ne m _ _ _ (hrp ▸ hp.1)
                  · intro c' hc' hsk'
                    rcases List.mem_cons.mp hc' with rfl | hc'
                    · rw [ResumeCache_lookup_congr c'.path (ih2 c'.path hcp)]
                      rw [emit_of_decode m hsk hl, hd]
                      unfold ResumeCache_lookup ResumeCache_store
                      rw [if_pos hrp.symm]
                      simp
                    · rw [ih3 c' hc' hsk']
                      exact emit_of_congr skipU cands c' (hagree c' hc')
                  · rw [ih4, decode_count_cons_miss m t hsk hl,
                      decode_count_congr skipU cands hagree]
                    omega
              | none =>
                  rw [scan_step_fail m out n hsk hl hd]
                  obtain ⟨ih1, ih2, ih3, ih4⟩ := ih m out (n + 1) hndt hokt
                  refine ⟨?_, ?_, ?_, ?_⟩
                  · rw [ih1, List.filterMap_cons, emit_of_decode m hsk hl, hd]
                    rfl
                  · intro p hp
                    rw [List.map_cons, List.mem_cons] at hp
                    push_neg at hp
                    exact ih2 p hp.2
                  · intro c' hc' hsk'
                    rcases List.mem_cons.mp hc' with rfl | hc'
                    · rw [ResumeCache_lookup_congr c'.path (ih2 c'.path hcp), hl,
                        emit_of_decode m hsk hl, hd]
                      rfl
                    · exact ih3 c' hc' hsk'
                  · rw [ih4, decode_count_cons_miss m t hsk hl]
                    omega

lemma filter_eq_nil_of_forall {α : Type} {l : List α} {f : α → Bool}
    (h : ∀ a ∈ l, f a = false) : l.filter f = [] := by
  induction l with
  | nil => rfl
  | cons a t ih =>
      have ha := h a (List.mem_cons_self _ _)
      simp [List.filter_cons, ha,
        ih fun x hx => h x (List.mem_cons_of_mem _ hx)]

/-- C9 counterexample: a single unchanged candidate whose decode fails
is never cached, so the second resume scan invokes the Decoder once, not
zero times. -/
theorem C9_counterexample :
    (walk_dir_scan false [⟨"a", 5, 7, none⟩]
        (walk_dir_scan false [⟨"a", 5, 7, none⟩] cacheMapEmpty).1).2.2 = 1 :=
  rfl

/-- C9 amended: with resume enabled, if on the first run every
non-skipped candidate is either served from the initial cache or
decodes successfully, then a second scan of the unchanged candidate
list (distinct paths, decode results carrying their own path) invokes
the Decoder zero times, emits exactly the first run's records, and
yields identical duplicate groups.  A candidate whose decode fails is
re-decoded on every run — see the counterexample. -/
theorem C9_resume_idempotence (skipU : Bool) (cands : List Candidate)
    (m0 : CacheMap)
    (hnd : (cands.map Candidate.path).Nodup)
    (hok : ∀ c ∈ cands, ∀ r, c.decode = some r → r.file_path = c.path)
    (hfirst : ∀ c ∈ cands, scan_skip skipU cands c = false →
      ResumeCache_lookup m0 c.path c.size c.mtime = none → c.decode ≠ none) :
    (walk_dir_scan skipU cands (walk_dir_scan skipU cands m0).1).2.2 = 0 ∧
    (walk_dir_scan skipU cands (walk_dir_scan skipU cands m0).1).2.1 =
      (walk_dir_scan skipU cands m0).2.1 ∧
    identical_groups
        (walk_dir_scan skipU cands (walk_dir_scan skipU cands m0).1).2.1 =
      identical_groups (walk_dir_scan skipU cands m0).2.1 := by
  unfold walk_dir_scan
  obtain ⟨hout1, hmap1, hlook1, hcnt1⟩ :=
    walk_fold_spec skipU cands cands m0 [] 0 hnd hok
  obtain ⟨hout2, hmap2, hlook2, hcnt2⟩ :=
    walk_fold_spec skipU cands cands
      (cands.foldl (scan_step skipU cands) (m0, [], 0)).1 [] 0 hnd hok
  have hemit : ∀ c ∈ cands, scan_skip skipU cands c = false →
      ∃ r, emit_of skipU cands m0 c = some r := by
    intro c hc hsk
    cases hl : ResumeCache_lookup m0 c.path c.size c.mtime with
    | some r => exact ⟨r, emit_of_hit m0 hsk hl⟩
    | none =>
        cases hd : c.decode with
        | some r0 =>
            exact ⟨patch_record r0 c, by rw [emit_of_decode m0 hsk hl, hd]; rfl⟩
        | none => exact absurd hd (hfirst c hc hsk hl)
  have hsame : ∀ c ∈ cands,
      emit_of skipU cands
          (cands.foldl (scan_step skipU cands) (m0, [], 0)).1 c =
        emit_of skipU cands m0 c := by
    intro c hc
    cases hsk : scan_skip skipU cands c with
    | true => rw [emit_of_skip _ hsk, emit_of_skip _ hsk]
    | false =>
        obtain ⟨r, hr⟩ := hemit c hc hsk
        have hlk := hlook1 c hc hsk
        rw [hr] at hlk
        rw [emit_of_hit _ hsk hlk, hr]
  have h2 : (cands.foldl (scan_step skipU cands)
        ((cands.foldl (scan_step skipU cands) (m0, [], 0)).1, [], 0)).2.1 =
      (cands.foldl (scan_step skipU cands) (m0, [], 0)).2.1 := by
    rw [hout2, hout1, filterMap_congr_mem hsame]
  have hzero : decode_count skipU cands
      (cands.foldl (scan_step skipU cands) (m0, [], 0)).1 cands = 0 := by
    unfold decode_count
    rw [filter_eq_nil_of_forall]
    · rfl
    · intro c hc
      cases hsk : scan_skip skipU cands c with
      | true => rfl
      | false =>
          obtain ⟨r, hr⟩ := hemit c hc hsk
          have hlk := hlook1 c hc hsk
          rw [hr] at hlk
          rw [hlk]
          rfl
  exact ⟨by rw [hcnt2, hzero], h2, by rw [h2]⟩

/-- Witness for the amended C9: one unchanged candidate that decodes
successfully on the first run is served from the cache on the second. -/
theorem C9_resume_idempotence_witness :
    (walk_dir_scan false
        [⟨"a", 3, 4, some ⟨"a", "", 1, 2, 3, 4, 5, 6, "", 0, 0⟩⟩]
        (walk_dir_scan false
          [⟨"a", 3, 4, some ⟨"a", "", 1, 2, 3, 4, 5, 6, "", 0, 0⟩⟩]
          cacheMapEmpty).1).2.2 = 0 ∧
    (walk_dir_scan false
        [⟨"a", 3, 4, some ⟨"a", "", 1, 2, 3, 4, 5, 6, "", 0, 0⟩⟩]
        (walk_dir_scan false
          [⟨"a", 3, 4, some ⟨"a", "", 1, 2, 3, 4, 5, 6, "", 0, 0⟩⟩]
          cacheMapEmpty).1).2.1 =
      (walk_dir_scan false
        [⟨"a", 3, 4, some ⟨"a", "", 1, 2, 3, 4, 5, 6, "", 0, 0⟩⟩]
        cacheMapEmpty).2.1 := by
  have hnd : (([⟨"a", 3, 4, some ⟨"a", "", 1, 2, 3, 4, 5, 6, "", 0, 0⟩⟩] :
      List Candidate).map Candidate.path).Nodup := by simp
  have hok : ∀ c ∈ ([⟨"a", 3, 4, some ⟨"a", "", 1, 2, 3, 4, 5, 6, "", 0, 0⟩⟩] :
      List Candidate), ∀ r, c.decode = some r → r.file_path = c.path := by
    intro c hc r hr
    rw [List.mem_singleton] at hc
    subst hc
    injection hr with h2
    rw [← h2]
  have hfirst : ∀ c ∈ ([⟨"a", 3, 4,
      some ⟨"a", "", 1, 2, 3, 4, 5, 6, "", 0, 0⟩⟩] : List Candidate),
      scan_skip false [⟨"a", 3, 4, some ⟨"a", "", 1, 2, 3, 4, 5, 6, "", 0, 0⟩⟩]
        c = false →
      ResumeCache_lookup cacheMapEmpty c.path c.size c.mtime = none →
      c.decode ≠ none := by
    intro c hc _ _
    rw [List.mem_singleton] at hc
    subst hc
    simp
  exact ⟨(C9_resume_idempotence false _ cacheMapEmpty hnd hok hfirst).1,
    (C9_resume_idempotence false _ cacheMapEmpty hnd hok hfirst).2.1⟩

end Fadupes
